import Mathlib

/-!
Shallow embedding of the core value-representation and annotation-inference
engine of the analyzed repository (a static inference engine for Python
sources), together with proofs about the claims of its specification.

The embedding follows the source files:
  * `jedi/inference/cache.py`      — the memoization substrate,
  * `jedi/inference/base_value.py` — the `Value`/`ValueSet` algebra,
  * `jedi/inference/helpers.py`    — `is_string`,
  * `jedi/evaluate/pep0484.py`     — annotation and generic inference,
  * `jedi/parser_utils.py`         — tree utilities used by the above.

Python exceptions are modelled with `Except`; machine-level behaviour that the
claims depend on (hashability of cache keys, one-shot exhaustion of
generators, attribute lookup falling through to `__getattr__`) is modelled
explicitly and is documented at each definition.
-/

deriving instance DecidableEq for Except

namespace Jedi

/-- Python exceptions that the embedded code can raise. -/
inductive PyError where
  | typeError
  | attributeError
  | assertionError
deriving DecidableEq, Repr

/-! ## `jedi/inference/cache.py` — the memoization substrate

A Python object appearing in an argument list.  The only property of an
argument object the cache code observes is whether it is hashable (hashing an
unhashable object raises `TypeError`); identity/equality is observed through
dict-key comparison.  We model an argument as an id together with a
hashability flag. -/
structure PyObj where
  id : Nat
  hashable : Bool
deriving DecidableEq, Repr

/-- The `*args`/`**kwargs` of one wrapped call (the `inference_state` first
argument is part of every call and is omitted from the key by the source, so
it does not appear here). -/
structure CallArgs where
  args : List PyObj
  kwargs : List (String × PyObj)
deriving DecidableEq

/-- Hashing the `args` tuple hashes each element. -/
def CallArgs.argsHashable (a : CallArgs) : Bool := a.args.all (·.hashable)

/-- Building `frozenset(kwargs.items())` hashes each `(name, value)` pair,
hence each value (names are strings and always hashable). -/
def CallArgs.kwargsHashable (a : CallArgs) : Bool := a.kwargs.all (fun p => p.2.hashable)

/-- `key = (func, args, frozenset(kwargs.items()))`.  The function identity is
modelled as a `Nat`; the frozenset as a `Finset`. -/
structure CacheKey where
  func : Nat
  args : List PyObj
  kwargs : Finset (String × PyObj)
deriving DecidableEq

def mkKey (fid : Nat) (a : CallArgs) : CacheKey :=
  ⟨fid, a.args, a.kwargs.toFinset⟩

/-- A value stored in `inference_state.memoize_cache` under a key: either the
module-level `_RECURSION_SENTINEL` object or a real result. -/
inductive CacheVal (ρ : Type) where
  | sentinel
  | result (r : ρ)
deriving DecidableEq

/-- What a wrapper returns to its caller.  Because the source returns
`cache[key]` directly, the `_RECURSION_SENTINEL` object itself can escape as
a return value, so the return type must include it. -/
inductive PyRet (ρ : Type) where
  | sentinel
  | val (r : ρ)
deriving DecidableEq

def CacheVal.toRet : CacheVal ρ → PyRet ρ
  | .sentinel => .sentinel
  | .result r => .val r

/-- The session-wide `memoize_cache` dict, keyed by `CacheKey`. -/
abbrev Cache (ρ : Type) := List (CacheKey × CacheVal ρ)

def Cache.lookup (c : Cache ρ) (k : CacheKey) : Option (CacheVal ρ) :=
  match c with
  | [] => none
  | (k1, v) :: rest => if k1 = k then some v else Cache.lookup rest k

/-- `cache[key] = v` (dict assignment: replaces any previous binding). -/
def Cache.store (c : Cache ρ) (k : CacheKey) (v : CacheVal ρ) : Cache ρ :=
  (k, v) :: (c.filter (fun p => p.1 ≠ k))

/-- `inference_state_method_cache` (cache.py lines 11-33).  The wrapped
function is modelled as a pure function of its arguments.  The last component
of the result counts how many times the wrapped function was invoked during
this one wrapper call — observational instrumentation for the
"no recomputation" properties; the source has no such counter.

Control flow of the source, line by line:
  * line 19 `key = (func, args, frozenset(kwargs.items()))` runs BEFORE the
    `try:` of line 22, so a `TypeError` raised while hashing an unhashable
    keyword-argument value into the frozenset propagates to the caller;
  * inside the `try:`, `key in cache` hashes the key and hence every
    positional argument; an unhashable positional argument raises
    `TypeError` there, which the `except TypeError:` catches, logging and
    falling back to a direct uncached call. -/
def inference_state_method_cache (f : CallArgs → ρ) (fid : Nat) (a : CallArgs)
    (cache : Cache ρ) : Except PyError (PyRet ρ × Cache ρ × Nat) :=
  if ¬ a.kwargsHashable then .error .typeError
  else
    let key := mkKey fid a
    if ¬ a.argsHashable then
      -- except TypeError: debug.warning(...); return func(inference_state, *args, **kwargs)
      .ok (.val (f a), cache, 1)
    else
      match Cache.lookup cache key with
      | some v => .ok (v.toRet, cache, 0)
      | none =>
        let r := f a
        .ok (.val r, Cache.store cache key (.result r), 1)

/-- `inference_state_as_method_param_cache` (cache.py lines 35-58), the
recursion-guarded discipline.  Unlike the plain cache it stores
`_RECURSION_SENTINEL` under the key before computing (line 50) and only then
calls the wrapped function.  The wrapped function receives the cache state it
would observe on re-entry.  Note that `key in cache: return cache[key]`
returns whatever object is stored — including the raw sentinel.  Note also
that `cls` (the first wrapped argument) is not part of the key. -/
def inference_state_as_method_param_cache (f : CallArgs → Cache ρ → ρ) (fid : Nat)
    (a : CallArgs) (cache : Cache ρ) : Except PyError (PyRet ρ × Cache ρ × Nat) :=
  if ¬ a.kwargsHashable then .error .typeError
  else
    let key := mkKey fid a
    if ¬ a.argsHashable then
      -- `key in cache` raises TypeError before the sentinel store; the except
      -- branch calls the function directly on the unchanged cache.
      .ok (.val (f a cache), cache, 1)
    else
      match Cache.lookup cache key with
      | some v => .ok (v.toRet, cache, 0)
      | none =>
        let cache1 := Cache.store cache key .sentinel
        let r := f a cache1
        .ok (.val r, Cache.store cache1 key (.result r), 1)

/-- `_memoize_default` (cache.py lines 60-95).  The decorator accepts a
`default` argument (`_NO_DEFAULT` modelled as `none`) and two flags choosing
where the `inference_state` sits; when no inference state is available the
cache is a fresh local dict `{}` whose updates are dropped.  The body of the
wrapper never mentions `default` and never stores a sentinel before calling
the function. -/
def _memoize_default (default : Option ρ) (useStateCache : Bool)
    (f : CallArgs → Cache ρ → ρ) (fid : Nat) (a : CallArgs)
    (stateCache : Cache ρ) : Except PyError (PyRet ρ × Cache ρ × Nat) :=
  let cache := if useStateCache then stateCache else []
  if ¬ a.kwargsHashable then .error .typeError
  else
    let key := mkKey fid a
    if ¬ a.argsHashable then
      .ok (.val (f a cache), stateCache, 1)
    else
      match Cache.lookup cache key with
      | some v => .ok (v.toRet, stateCache, 0)
      | none =>
        -- no sentinel, no default: the function is called with the cache
        -- still holding no entry for `key`
        let r := f a cache
        .ok (.val r, if useStateCache then Cache.store cache key (.result r) else stateCache, 1)

/-- What a call to a `inference_state_method_generator_cache`-wrapped
function returns: the cached materialized list, or — on re-entry while the
first call is still draining — the raw sentinel object. -/
inductive GenRet (ρ : Type) where
  | sentinel
  | values (l : List ρ)
deriving DecidableEq

def CacheVal.toGenRet : CacheVal (List ρ) → GenRet ρ
  | .sentinel => .sentinel
  | .result l => .values l

/-- `inference_state_method_generator_cache` (cache.py lines 108-136).  The
wrapped generator function is modelled by the full sequence of values its
generator yields; `list(generator)` drains it exactly once, which is counted
by the last component.  First call: create generator, store the sentinel,
drain, overwrite with the materialized list, return it.  Later identical
call: return the cached list (`cache[key]`), draining nothing. -/
def inference_state_method_generator_cache (f : CallArgs → List ρ) (fid : Nat)
    (a : CallArgs) (cache : Cache (List ρ)) :
    Except PyError (GenRet ρ × Cache (List ρ) × Nat) :=
  if ¬ a.kwargsHashable then .error .typeError
  else
    let key := mkKey fid a
    if ¬ a.argsHashable then
      -- the except branch returns func(...) — the raw generator, undrained;
      -- we model the values it would yield
      .ok (.values (f a), cache, 1)
    else
      match Cache.lookup cache key with
      | some v => .ok (v.toGenRet, cache, 0)
      | none =>
        let values := f a
        .ok (.values values, Cache.store (Cache.store cache key .sentinel) key (.result values), 1)

/-! ## `jedi/inference/base_value.py` — the `Value`/`ValueSet` algebra -/

/-- A single inferred value (an instance of the `Value` class hierarchy).
Values are compared structurally; we identify one by an id.  The plain
`Value` class defines no `_from_frozen_set` attribute and no `__getattr__`. -/
structure Value where
  id : Nat
deriving DecidableEq, Repr

/-- A member object handed to the `ValueSet` constructor: either a `Value`
or — the contract-violating case — another `ValueSet` (whose own members are
`Value`s).  Both are hashable in Python (`ValueSet` defines `__hash__` over
its frozenset). -/
inductive VMember where
  | val (v : Value)
  | set (s : Finset Value)
deriving DecidableEq

def VMember.isSet : VMember → Bool
  | .val _ => false
  | .set _ => true

/-- The iterable passed to `ValueSet.__init__`: either a re-iterable
container (list/tuple/set — iterating it twice yields its elements twice) or
a one-shot iterator such as a generator, which yields its pending elements
once and is exhausted afterwards. -/
inductive PyIterable where
  | list (l : List VMember)
  | generator (l : List VMember)

/-- A constructed `ValueSet`: its `_set` frozenset.  (Construction can
succeed with a nested set inside — see `ValueSet.init`.) -/
structure ValueSet where
  _set : Finset VMember
deriving DecidableEq

/-- `ValueSet.__init__` (base_value.py lines 155-158):

    self._set = frozenset(iterable)
    for value in iterable:
        assert not isinstance(value, ValueSet)

`frozenset(iterable)` consumes the iterable.  The `for` loop then iterates
the *same* iterable object a second time: a re-iterable container yields its
elements again and the assertion fires on any `ValueSet` member; a one-shot
iterator is already exhausted, so the loop body never runs. -/
def ValueSet.init (it : PyIterable) : Except PyError ValueSet :=
  let elems : List VMember := match it with
    | .list l => l
    | .generator l => l
  let second : List VMember := match it with
    | .list l => l
    | .generator _ => []
  if second.all (fun m => ¬ m.isSet) then .ok ⟨elems.toFinset⟩
  else .error .assertionError

/-- `iterator_to_value_set` (base_value.py lines 88-92): passes the generator
straight to the `ValueSet` constructor. -/
def iterator_to_value_set (yields : List VMember) : Except PyError ValueSet :=
  ValueSet.init (.generator yields)

/-- The distinguished empty set `NO_VALUES = ValueSet([])`. -/
def NO_VALUES : ValueSet := ⟨∅⟩

/-- `ValueSet.__or__` (base_value.py line 167-168):

    def __or__(self, other):
        return self._from_frozen_set(self._set | other._set)

The class defines no method or attribute `_from_frozen_set`, so the lookup
falls through to `ValueSet.__getattr__` (lines 185-189), which returns the
broadcast `mapper`; the call then evaluates
`self.from_sets(getattr(value, '_from_frozen_set')(u) for value in self._set)`
with `from_sets = cls(reduce(add, sets, frozenset()))`:
  * empty receiver: the generator is empty, `reduce` returns the initial
    `frozenset()` and the result is the empty `ValueSet` — the right operand
    is ignored entirely;
  * nonempty receiver obeying the constructor invariant (all members are
    `Value`s): pulling the first generator element evaluates
    `getattr(value, '_from_frozen_set')` on a plain `Value`, which has no
    such attribute and no `__getattr__` — `AttributeError`.
We state the operation for operands obeying the invariant (members are
`Value`s), the only sets the guarded constructor produces. -/
def ValueSet.pyOr (a b : ValueSet) : Except PyError ValueSet :=
  if a._set = ∅ then .ok ⟨∅⟩ else .error .attributeError

/-- `ValueSet.__and__` (base_value.py line 170-171): same dispatch through
the missing `_from_frozen_set`, applied to `self._set & other._set`. -/
def ValueSet.pyAnd (a b : ValueSet) : Except PyError ValueSet :=
  if a._set = ∅ then .ok ⟨∅⟩ else .error .attributeError

/-! ## `jedi/evaluate/pep0484.py` — annotation and generic inference

The syntax-tree abstraction (parso) is an excluded collaborator (spec §6).
A node is a leaf (with a token value) or an inner node with children; both
carry a type tag (`node.type`). -/
inductive PyNode where
  | leaf (kind : String) (value : String)
  | node (kind : String) (children : List PyNode)

def PyNode.kind : PyNode → String
  | .leaf k _ => k
  | .node k _ => k

/-- The token value of a leaf.  parso operators compare equal to their value
string (`trailer.children[0] == '['`). -/
def PyNode.value : PyNode → String
  | .leaf _ v => v
  | .node _ _ => ""

/-- `node.children`.  In parso only `BaseNode`s have a `children` attribute;
accessing it on a leaf raises `AttributeError`.  Sites that guard that access
with `try/except` match on the constructor instead of using this accessor. -/
def PyNode.children : PyNode → List PyNode
  | .leaf _ _ => []
  | .node _ cs => cs

/-- `node.get_code()`: the source text of the subtree (modulo whitespace,
which our nodes do not carry). -/
def PyNode.getCode : PyNode → String
  | .leaf _ v => v
  | .node _ cs => go cs
where go : List PyNode → String
  | [] => ""
  | c :: rest => c.getCode ++ go rest

/-- A value produced by evaluation at this layer (a jedi `Context`).  The
variants the claims need: a `TypeVar` (identified by name), a compiled value
wrapping a string constant (`get_safe_value` returns the wrapped `str`), and
any other value. -/
inductive InfValue where
  | typeVar (name : String)
  | strConst (s : String)
  | plain (id : Nat)
deriving DecidableEq, Repr

def InfValue.isTypeVar : InfValue → Bool
  | .typeVar _ => true
  | _ => false

/-- `get_safe_value()` on a compiled value wrapping a string. -/
def InfValue.safeValue : InfValue → Option String
  | .strConst s => some s
  | _ => none

/-- A Python runtime object as seen by `isinstance` checks: either an actual
`str` instance or an inference `Context`/`Value` object.  The members of a
`ContextSet` are always inference objects, never raw `str` instances. -/
inductive PyRuntimeObj where
  | pyStr (s : String)
  | ctxObj (v : InfValue)

/-- `is_string` (jedi/inference/helpers.py lines 65-69):

    def is_string(value):
        return isinstance(value, str)

`isinstance(value, str)` holds exactly for raw `str` instances. -/
def is_string : PyRuntimeObj → Bool
  | .pyStr _ => true
  | .ctxObj _ => false

/-- The evaluation environment: `eval_node` (name resolution, an excluded
collaborator, spec §6) returning the members of the resulting `ContextSet` in
its iteration order, and the grammar's `parse` with `error_recovery=False`
(`none` models `ParserSyntaxError`). -/
structure Context where
  evalNode : PyNode → List InfValue
  parse : String → Option PyNode

/-- The `ContextSet` of `jedi/evaluate/base_context.py`.
Modelled from the spec: that file is not part of the sources; §3/§4.1
describe it as an unordered deduplicated collection of values whose
`from_sets` unions per-member results.  (It is a different class from the
`ValueSet` of `jedi/inference/base_value.py` embedded above.) -/
abbrev ContextSet : Type := Finset InfValue

/-- `NO_CONTEXTS`, the empty `ContextSet`.
Modelled from the spec: "a distinguished singleton empty ValueSet represents
nothing could be inferred" (§4.1). -/
def NO_CONTEXTS : ContextSet := (∅ : Finset InfValue)

/-- `ContextSet.from_sets`: union of an iterable of sets.
Modelled from the spec (§4.1): per-member results are unioned. -/
def ContextSet.from_sets (l : List ContextSet) : ContextSet :=
  l.foldl (fun acc s => acc ∪ s) NO_CONTEXTS

/-- `context.eval_node(node)` as a `ContextSet`. -/
def Context.evalSet (ctx : Context) (n : PyNode) : ContextSet :=
  (ctx.evalNode n).toFinset

/-- `_get_forward_reference_node` (pep0484.py lines 80-94): parse the string
with the grammar (`ParserSyntaxError` → warn and return `None`), then splice
the fresh node into the tree (`parser_utils.move` shifts positions and the
parent pointer is re-attached — position metadata our nodes do not carry)
and return it. -/
def _get_forward_reference_node (ctx : Context) (s : String) : Option PyNode :=
  ctx.parse s

/-- `_fix_forward_reference` (pep0484.py lines 64-77): evaluate the node; if
that yields anything other than exactly one value, warn and keep the node;
otherwise test the single value with `is_string` — its argument is a member
of the evaluated `ContextSet`, i.e. an inference object, injected here by
`PyRuntimeObj.ctxObj` — and on success re-parse `get_safe_value()`; a failed
parse keeps the node. -/
def _fix_forward_reference (ctx : Context) (node : PyNode) : PyNode :=
  match ctx.evalNode node with
  | [v] =>
    if is_string (.ctxObj v) then
      match v.safeValue with
      | some s => (_get_forward_reference_node ctx s).getD node
      | none => node
    else node
  | _ => node

/-- `_evaluate_for_annotation` (pep0484.py lines 41-47); the source name is
shortened here. -/
def _evaluate_for_ann (ctx : Context) (ann : PyNode) : ContextSet :=
  ctx.evalSet (_fix_forward_reference ctx ann)

/-- `l[::2]` — every second element, starting at index 0. -/
def everyOther : List α → List α
  | [] => []
  | [a] => [a]
  | a :: _ :: rest => a :: everyOther rest

/-- The name under which the subscripted type was found: `typ.name.string_name`
together with `typ.get_root_context().name.string_name`. -/
structure TypInfo where
  rootName : String
  name : String

/-- `py__simple_getitem__` (pep0484.py lines 396-450), up to the hard-coded
`Union`/`Optional` forms the claims are about.  The later delegation to the
embedded typing-replacement module (a synthetic factory executed like a real
call) is abstracted as `factoryResult`.  `None` returns are `none`. -/
def py__simple_getitem__ (ctx : Context) (typ : TypInfo) (node : PyNode)
    (factoryResult : Option ContextSet) : Option ContextSet :=
  if typ.rootName ≠ "typing" then none
  else
    -- nodes = node.children[::2] for a subscriptlist (skip the commas), else [node]
    let nodes := if node.kind = "subscriptlist" then everyOther node.children else [node]
    let nodes := nodes.map (_fix_forward_reference ctx)
    if typ.name = "Union" ∨ typ.name = "_Union" then
      some (ContextSet.from_sets (nodes.map (fun n => ctx.evalSet n)))
    else if typ.name = "Optional" ∨ typ.name = "_Optional" then
      match nodes.head? with
      | some n0 => some (ctx.evalSet n0)
      | none => none  -- nodes[0] on an empty list raises IndexError; a
                      -- subscriptlist node always has children in the grammar
    else factoryResult

/-- `_unpack_subscriptlist` (pep0484.py lines 511-518): for a `subscriptlist`
node yield every second child (skipping the comma operators) that is not a
`subscript` (slice) node; any other single node is yielded itself unless it
is a `subscript`. -/
def _unpack_subscriptlist (subscriptlist : PyNode) : List PyNode :=
  if subscriptlist.kind = "subscriptlist" then
    (everyOther subscriptlist.children).filter (fun s => s.kind ≠ "subscript")
  else
    if subscriptlist.kind ≠ "subscript" then [subscriptlist] else []

theorem sizeOf_lt_of_mem_children {n c : PyNode} (h : c ∈ n.children) :
    sizeOf c < sizeOf n := by
  cases n with
  | leaf k v => simp [PyNode.children] at h
  | node k cs =>
    simp only [PyNode.children] at h
    have h1 := List.sizeOf_lt_of_mem h
    simp only [PyNode.node.sizeOf_spec]
    omega

theorem mem_of_mem_everyOther : ∀ (l : List α) {x : α}, x ∈ everyOther l → x ∈ l
  | [], _, h => by simp [everyOther] at h
  | [a], _, h => by simpa [everyOther] using h
  | a :: b :: rest, x, h => by
    simp only [everyOther, List.mem_cons] at h ⊢
    rcases h with h | h
    · exact Or.inl h
    · exact Or.inr (Or.inr (mem_of_mem_everyOther rest h))

theorem sizeOf_le_of_mem_unpack {s x : PyNode} (h : x ∈ _unpack_subscriptlist s) :
    sizeOf x ≤ sizeOf s := by
  unfold _unpack_subscriptlist at h
  split at h
  · have hx := (List.mem_filter.mp h).1
    exact le_of_lt (sizeOf_lt_of_mem_children (mem_of_mem_everyOther _ hx))
  · split at h
    · rw [List.mem_singleton] at h
      exact le_of_eq (by rw [h])
    · simp at h

/-- The helper `check_node` inside `find_unknown_type_vars` (pep0484.py lines
494-504), with the mutable `found` list threaded explicitly.  A subscripted
`atom_expr` recurses into each subscript argument; an `atom_expr` whose last
child is not a `['`-trailer does nothing; every other node is evaluated and
each resulting `TypeVar` not already recorded is appended. -/
def checkNode (ctx : Context) (node : PyNode) (found : List InfValue) : List InfValue :=
  if node.kind = "atom_expr" then
    match h1 : node.children.getLast? with
    | none => found  -- node.children[-1] raises IndexError; an atom_expr has children
    | some trailer =>
      if trailer.kind = "trailer" ∧ trailer.children.head?.map PyNode.value = some "[" then
        match h2 : trailer.children[1]? with
        | none => found  -- trailer.children[1] raises IndexError; a bracketed
                         -- trailer has three children in the grammar
        | some sub =>
          (_unpack_subscriptlist sub).attach.foldl
            (fun acc x => checkNode ctx x.1 acc) found
      else found
  else
    (ctx.evalNode node).foldl
      (fun acc v => if v.isTypeVar ∧ v ∉ acc then acc ++ [v] else acc) found
termination_by sizeOf node
decreasing_by
  calc sizeOf x.1 ≤ sizeOf sub := sizeOf_le_of_mem_unpack x.2
    _ < sizeOf trailer := sizeOf_lt_of_mem_children (List.getElem?_mem h2)
    _ < sizeOf node := sizeOf_lt_of_mem_children (List.mem_of_mem_getLast? h1)

/-- `find_unknown_type_vars` (pep0484.py lines 493-508): walk the annotation
with `found = []`. -/
def find_unknown_type_vars (ctx : Context) (node : PyNode) : List InfValue :=
  checkNode ctx node []

/-- The sequence of `TypeVar` values `check_node`'s walk records, in
traversal order with duplicates kept.  This is the specification's notion of
occurrence order, defined alongside the source function to state the
first-occurrence-order property. -/
def tvOccurrences (ctx : Context) (node : PyNode) : List InfValue :=
  if node.kind = "atom_expr" then
    match h1 : node.children.getLast? with
    | none => []
    | some trailer =>
      if trailer.kind = "trailer" ∧ trailer.children.head?.map PyNode.value = some "[" then
        match h2 : trailer.children[1]? with
        | none => []
        | some sub =>
          (_unpack_subscriptlist sub).attach.foldl
            (fun acc x => acc ++ tvOccurrences ctx x.1) []
      else []
  else
    (ctx.evalNode node).filter (·.isTypeVar)
termination_by sizeOf node
decreasing_by
  calc sizeOf x.1 ≤ sizeOf sub := sizeOf_le_of_mem_unpack x.2
    _ < sizeOf trailer := sizeOf_lt_of_mem_children (List.getElem?_mem h2)
    _ < sizeOf node := sizeOf_lt_of_mem_children (List.mem_of_mem_getLast? h1)

/-- Append a value unless it is already present — the effect of one
`found.append` guarded by `not in found`. -/
def insertIfNew [DecidableEq α] (acc : List α) (v : α) : List α :=
  if v ∈ acc then acc else acc ++ [v]

/-- Keep the first occurrence of every element, dropping later duplicates —
the specification's description of discovery order. -/
def firstOccurrenceDedup [DecidableEq α] : List α → List α
  | [] => []
  | a :: l => a :: firstOccurrenceDedup (l.filter (· ≠ a))
termination_by l => l.length
decreasing_by
  exact Nat.lt_succ_of_le (List.length_filter_le _ _)

theorem foldl_guard_eq_filter_insertIfNew [DecidableEq α] (p : α → Bool) :
    ∀ (l : List α) (found : List α),
      l.foldl (fun acc v => if p v ∧ v ∉ acc then acc ++ [v] else acc) found
        = (l.filter p).foldl insertIfNew found := by
  intro l
  induction l with
  | nil => intro found; rfl
  | cons a l ih =>
    intro found
    by_cases hp : p a
    · simp only [List.foldl_cons, List.filter_cons, hp, if_pos, ih, insertIfNew]
      by_cases hmem : a ∈ found
      · simp [hmem]
      · simp [hmem]
    · simp [List.foldl_cons, List.filter_cons, hp, ih]

theorem foldl_append_init (f : β → List γ) :
    ∀ (l : List β) (init : List γ),
      l.foldl (fun acc x => acc ++ f x) init
        = init ++ l.foldl (fun acc x => acc ++ f x) [] := by
  intro l
  induction l with
  | nil => intro init; simp
  | cons a l ih =>
    intro init
    simp only [List.foldl_cons, List.nil_append]
    rw [ih (init ++ f a), ih (f a), List.append_assoc]

theorem foldl_insertIfNew_eq_firstOccurrenceDedup [DecidableEq α] :
    ∀ (l : List α) (acc : List α),
      l.foldl insertIfNew acc = acc ++ firstOccurrenceDedup (l.filter (· ∉ acc)) := by
  intro l
  induction l with
  | nil => intro acc; simp [firstOccurrenceDedup]
  | cons a l ih =>
    intro acc
    rw [List.foldl_cons, insertIfNew, List.filter_cons]
    by_cases hmem : a ∈ acc
    · rw [if_pos hmem, ih]
      simp [hmem]
    · rw [if_neg hmem]
      have hd : decide (a ∉ acc) = true := by simp [hmem]
      rw [hd, if_pos rfl, ih, firstOccurrenceDedup]
      have hfilter : (l.filter (· ∉ acc)).filter (· ≠ a)
          = l.filter (· ∉ acc ++ [a]) := by
        rw [List.filter_filter]
        apply List.filter_congr
        intro x _
        simp only [List.mem_append, List.mem_singleton, decide_not, Bool.and_comm]
        by_cases hxa : x = a <;> by_cases hxacc : x ∈ acc <;> simp [hxa, hxacc]
      rw [← hfilter, List.append_assoc, List.singleton_append]

theorem mem_firstOccurrenceDedup [DecidableEq α] :
    ∀ (l : List α) (x : α), x ∈ firstOccurrenceDedup l ↔ x ∈ l
  | [], x => by simp [firstOccurrenceDedup]
  | a :: l, x => by
    rw [firstOccurrenceDedup]
    simp only [List.mem_cons]
    constructor
    · rintro (h | h)
      · exact Or.inl h
      · exact Or.inr ((List.mem_filter.mp
          ((mem_firstOccurrenceDedup (l.filter (· ≠ a)) x).mp h)).1)
    · rintro (h | h)
      · exact Or.inl h
      · by_cases hxa : x = a
        · exact Or.inl hxa
        · refine Or.inr ((mem_firstOccurrenceDedup (l.filter (· ≠ a)) x).mpr ?_)
          exact List.mem_filter.mpr ⟨h, by simpa using hxa⟩
termination_by l => l.length
decreasing_by
  all_goals exact Nat.lt_succ_of_le (List.length_filter_le _ _)

theorem nodup_firstOccurrenceDedup [DecidableEq α] :
    ∀ (l : List α), (firstOccurrenceDedup l).Nodup
  | [] => by simp [firstOccurrenceDedup]
  | a :: l => by
    rw [firstOccurrenceDedup]
    refine List.nodup_cons.mpr ⟨?_, nodup_firstOccurrenceDedup (l.filter (· ≠ a))⟩
    intro hmem
    have := (List.mem_filter.mp
      ((mem_firstOccurrenceDedup (l.filter (· ≠ a)) a).mp hmem)).2
    simp at this
termination_by l => l.length
decreasing_by
  all_goals exact Nat.lt_succ_of_le (List.length_filter_le _ _)

theorem foldl_attach_bridge (ctx : Context) (P : PyNode → Prop)
    (IH : ∀ x, P x → ∀ found, checkNode ctx x found
        = (tvOccurrences ctx x).foldl insertIfNew found) :
    ∀ (ys : List {x // P x}) (found : List InfValue),
      ys.foldl (fun acc x => checkNode ctx x.1 acc) found
        = (ys.foldl (fun acc x => acc ++ tvOccurrences ctx x.1) []).foldl
            insertIfNew found := by
  intro ys
  induction ys with
  | nil => intro found; rfl
  | cons a l ih =>
    intro found
    simp only [List.foldl_cons, List.nil_append]
    have h2 := foldl_append_init (fun (x : {x // P x}) => tvOccurrences ctx x.1) l
      (tvOccurrences ctx a.1)
    rw [h2, List.foldl_append, IH a.1 a.2 found, ih]

theorem checkNode_eq_foldl (ctx : Context) :
    ∀ (N : Nat) (node : PyNode), sizeOf node ≤ N → ∀ (found : List InfValue),
      checkNode ctx node found = (tvOccurrences ctx node).foldl insertIfNew found := by
  intro N
  induction N with
  | zero =>
    intro node h
    exfalso
    cases node <;> simp_all
  | succ N ihN =>
    intro node hN found
    rw [checkNode.eq_def, tvOccurrences.eq_def]
    by_cases hk : node.kind = "atom_expr"
    · simp only [hk, if_true]
      cases hl : node.children.getLast? with
      | none => rfl
      | some trailer =>
        by_cases ht : trailer.kind = "trailer"
            ∧ trailer.children.head?.map PyNode.value = some "["
        · simp only [ht, if_true]
          cases h2 : trailer.children[1]? with
          | none => rfl
          | some sub =>
            refine foldl_attach_bridge ctx (· ∈ _unpack_subscriptlist sub) ?_ _ found
            intro x hx found1
            refine ihN x ?_ found1
            have hchain : sizeOf x < sizeOf node := by
              calc sizeOf x ≤ sizeOf sub := sizeOf_le_of_mem_unpack hx
                _ < sizeOf trailer :=
                    sizeOf_lt_of_mem_children (List.getElem?_mem h2)
                _ < sizeOf node :=
                    sizeOf_lt_of_mem_children (List.mem_of_mem_getLast? hl)
            omega
        · simp only [ht, if_false]
          rfl
    · simp only [hk, if_false]
      exact foldl_guard_eq_filter_insertIfNew _ _ _

theorem foldl_append_eq_flatten (f : β → List γ) :
    ∀ (l : List β), l.foldl (fun acc x => acc ++ f x) [] = (l.map f).flatten := by
  intro l
  induction l with
  | nil => rfl
  | cons a l ih =>
    rw [List.foldl_cons, List.nil_append, foldl_append_init, ih, List.map_cons,
      List.flatten_cons]

/-- Reading of `tvOccurrences` at a subscripted `atom_expr`: the occurrence
lists of the subscript arguments, concatenated in order. -/
theorem tvOccurrences_atom_sub (ctx : Context) (node trailer sub : PyNode)
    (hk : node.kind = "atom_expr")
    (hl : node.children.getLast? = some trailer)
    (ht : trailer.kind = "trailer"
        ∧ trailer.children.head?.map PyNode.value = some "[")
    (h2 : trailer.children[1]? = some sub) :
    tvOccurrences ctx node
      = ((_unpack_subscriptlist sub).map (tvOccurrences ctx)).flatten := by
  rw [tvOccurrences.eq_def]
  simp only [hk, if_true]
  split
  · simp_all
  · rename_i trailer2 heq
    rw [hl] at heq
    injection heq with heq
    subst heq
    rw [if_pos ht]
    split
    · simp_all
    · rename_i sub2 heq2
      rw [h2] at heq2
      injection heq2 with heq2
      subst heq2
      rw [foldl_append_eq_flatten]
      rw [List.attach_map_val (_unpack_subscriptlist sub) (tvOccurrences ctx)]

/-- Reading of `tvOccurrences` at any node that is not an `atom_expr`: the
`TypeVar`s among the node's evaluation results. -/
theorem tvOccurrences_not_atom (ctx : Context) (node : PyNode)
    (hk : node.kind ≠ "atom_expr") :
    tvOccurrences ctx node = (ctx.evalNode node).filter (·.isTypeVar) := by
  rw [tvOccurrences.eq_def]
  simp only [hk, if_false]

/-- The walk of `find_unknown_type_vars` records exactly the first occurrence
of each discovered `TypeVar`, in traversal order. -/
theorem find_unknown_type_vars_eq_dedup (ctx : Context) (node : PyNode) :
    find_unknown_type_vars ctx node
      = firstOccurrenceDedup (tvOccurrences ctx node) := by
  rw [find_unknown_type_vars,
    checkNode_eq_foldl ctx (sizeOf node) node le_rfl [],
    foldl_insertIfNew_eq_firstOccurrenceDedup]
  simp

/-! Concrete instance: the annotation `Mapping[K, Iterable[K]]` as a parso
tree, in an environment where `K` resolves to the type variable `K`. -/

def nameK : PyNode := .leaf "name" "K"

def trailerIterK : PyNode :=
  .node "trailer" [.leaf "operator" "[", nameK, .leaf "operator" "]"]

def iterableOfK : PyNode :=
  .node "atom_expr" [.leaf "name" "Iterable", trailerIterK]

def subListKIter : PyNode :=
  .node "subscriptlist" [nameK, .leaf "operator" ",", iterableOfK]

def trailerMapping : PyNode :=
  .node "trailer" [.leaf "operator" "[", subListKIter, .leaf "operator" "]"]

def mappingAnnTree : PyNode :=
  .node "atom_expr" [.leaf "name" "Mapping", trailerMapping]

/-- The environment: the name `K` resolves to the `TypeVar` named `K`; any
other node resolves to a plain (non-TypeVar) value. -/
def ctxK : Context :=
  ⟨fun n => if n.kind = "name" ∧ n.value = "K" then [.typeVar "K"] else [.plain 0],
   fun _ => none⟩

/-- `_split_comment_param_declaration` (pep0484.py lines 97-125).
`parseExpr` models `parse(decl_text, error_recovery=False).children[0]`, the
expression node parsed from the comment text by the external grammar (`none`
models `ParserSyntaxError`, which the source turns into `[]` after a
warning).  A `name` node is returned alone; otherwise the `children` of the
parsed node are walked and the `name`/`atom_expr`/`power` children are kept
in order (accessing `children` on a leaf raises `AttributeError`, which the
source catches and turns into `[]`). -/
def _split_comment_param_declaration (parseExpr : String → Option PyNode)
    (declText : String) : List String :=
  match parseExpr declText with
  | none => []
  | some n =>
    if n.kind = "name" then [n.getCode.trim]
    else
      match n with
      | .leaf _ _ => []
      | .node _ children =>
        (children.filter
          (fun c => c.kind = "name" ∨ c.kind = "atom_expr" ∨ c.kind = "power")).map
          (fun c => c.getCode.trim)

/-- The comment-annotation branch of `infer_param` (pep0484.py lines
152-174), after the `# type: (...) ->` comment has been matched and split.
`paramsComments` is the split parameter declaration list, `index` is
`all_params.index(param)`, `isInstanceBound` is
`isinstance(execution_context.var_args, InstanceArguments)`, and
`evalAnnString` is `_evaluate_annotation_string(...)` applied to the chosen
comment text.  The arity comparison of line 156 only logs a warning and is
behaviourally inert; when the call is bound to an instance, index 0 is
assumed to be the implicit receiver (`NO_CONTEXTS`) and later parameters
shift down by one; an index beyond the comment list yields `NO_CONTEXTS`. -/
def inferParamFromComment (paramsComments : List String) (index : Nat)
    (isInstanceBound : Bool) (evalAnnString : String → ContextSet) : ContextSet :=
  if isInstanceBound ∧ index = 0 then NO_CONTEXTS
  else if h : (if isInstanceBound then index - 1 else index)
      < paramsComments.length then
    evalAnnString (paramsComments.get
      ⟨if isInstanceBound then index - 1 else index, h⟩)
  else NO_CONTEXTS

/-! Concrete instances for the forward-reference and `Union`/`Optional`
claims. -/

/-- The annotation written as the quoted string `'int'` (a string literal
node). -/
def strAnn : PyNode := .leaf "string" "'int'"

/-- The annotation written as the literal class name `int` (a name node). -/
def litAnn : PyNode := .leaf "name" "int"

/-- The name node `str`. -/
def strNameAnn : PyNode := .leaf "name" "str"

/-- An environment in which the string-literal annotation evaluates to
exactly one value — a compiled value wrapping the string "int" — the name
`int` evaluates to the class value `plain 1`, the name `str` to `plain 2`,
and the grammar parses "int" back to the name node `int`.  This is precisely
the situation in which the specification expects the forward reference to be
substituted. -/
def ctxFR : Context :=
  ⟨fun n =>
      if n.kind = "string" then [.strConst "int"]
      else if n.kind = "name" ∧ n.value = "int" then [.plain 1]
      else if n.kind = "name" ∧ n.value = "str" then [.plain 2]
      else [],
   fun s => if s = "int" then some litAnn else none⟩

/-- The subscript of `Union[int, str]`: the subscriptlist `int, str`. -/
def unionSubscript : PyNode :=
  .node "subscriptlist" [litAnn, .leaf "operator" ",", strNameAnn]

/-- `typing.Union` as found by name resolution. -/
def typUnion : TypInfo := ⟨"typing", "Union"⟩

/-- `typing.Optional` as found by name resolution. -/
def typOptional : TypInfo := ⟨"typing", "Optional"⟩

theorem tvOccurrences_nameK : tvOccurrences ctxK nameK = [.typeVar "K"] := by
  rw [tvOccurrences_not_atom]
  · simp [ctxK, nameK, PyNode.kind, PyNode.value, InfValue.isTypeVar]
  · simp [nameK, PyNode.kind]

theorem unpack_nameK : _unpack_subscriptlist nameK = [nameK] := by
  simp [_unpack_subscriptlist, nameK, PyNode.kind]

theorem tvOccurrences_iterableOfK :
    tvOccurrences ctxK iterableOfK = [.typeVar "K"] := by
  rw [tvOccurrences_atom_sub ctxK iterableOfK trailerIterK nameK rfl rfl
    ⟨rfl, rfl⟩ rfl, unpack_nameK]
  simp [tvOccurrences_nameK]

theorem unpack_subListKIter :
    _unpack_subscriptlist subListKIter = [nameK, iterableOfK] := by
  simp [_unpack_subscriptlist, subListKIter, PyNode.kind, PyNode.children,
    everyOther, nameK, iterableOfK]

theorem tvOccurrences_mappingAnnTree :
    tvOccurrences ctxK mappingAnnTree = [.typeVar "K", .typeVar "K"] := by
  rw [tvOccurrences_atom_sub ctxK mappingAnnTree trailerMapping subListKIter
    rfl rfl ⟨rfl, rfl⟩ rfl, unpack_subListKIter]
  simp [tvOccurrences_nameK, tvOccurrences_iterableOfK]

theorem Cache.lookup_store (c : Cache ρ) (k : CacheKey) (v : CacheVal ρ) :
    Cache.lookup (Cache.store c k v) k = some v := by
  simp [Cache.store, Cache.lookup]

/-- `_fix_forward_reference` is the identity on every input: the only branch
that could replace the node is guarded by `is_string` applied to an
inference value, which is never a Python `str` instance. -/
theorem fix_forward_reference_id (ctx : Context) (node : PyNode) :
    _fix_forward_reference ctx node = node := by
  unfold _fix_forward_reference
  cases hev : ctx.evalNode node with
  | nil => rfl
  | cons v rest =>
    cases rest with
    | nil => rfl
    | cons w rest2 => rfl

/-! ## The claims -/

/-- **C1** (code bug).  The specified union/intersection algebra of
`ValueSet` fails on the code: `__or__`/`__and__` call `_from_frozen_set`,
which the class does not define, so the lookup falls through to the
broadcast `__getattr__`.  Concretely, with `A = ValueSet({Value 0})`:
`NO_VALUES | A` evaluates to `NO_VALUES` — the right operand is silently
dropped, refuting `A | empty == A` together with commutativity — while
`A | NO_VALUES` and `A & A` raise `AttributeError` instead of returning
a new `ValueSet`. -/
theorem C1_union_intersection_broken :
    ValueSet.pyOr NO_VALUES ⟨{VMember.val ⟨0⟩}⟩ = .ok NO_VALUES
    ∧ (⟨{VMember.val ⟨0⟩}⟩ : ValueSet) ≠ NO_VALUES
    ∧ ValueSet.pyOr ⟨{VMember.val ⟨0⟩}⟩ NO_VALUES = .error .attributeError
    ∧ ValueSet.pyAnd ⟨{VMember.val ⟨0⟩}⟩ ⟨{VMember.val ⟨0⟩}⟩
        = .error .attributeError := by
  refine ⟨?_, ?_, ?_, ?_⟩ <;> decide

/-- **C2** (code bug).  Re-entering the recursion-guarded
`inference_state_as_method_param_cache` on a key whose computation is in
flight — the cache holds the `_RECURSION_SENTINEL` under the key, exactly
the state line 50 creates before calling the wrapped function — returns the
raw sentinel object itself, not the default/empty result the specification
requires.  Moreover `_memoize_default` never consults its `default`
argument: its output is identical under `some 99` and `none` (the module
docstring says it "returns the default", and its own docstring says it
"sets defaults" to prevent recursion, but the body ignores `default`
and stores no guard at all). -/
theorem C2_reentry_returns_sentinel :
    inference_state_as_method_param_cache (fun _ _ => (7 : Nat)) 0 ⟨[], []⟩
        [(mkKey 0 ⟨[], []⟩, .sentinel)]
      = .ok (.sentinel, [(mkKey 0 ⟨[], []⟩, .sentinel)], 0)
    ∧ _memoize_default (some (99 : Nat)) true (fun _ _ => 7) 0 ⟨[], []⟩ []
      = _memoize_default none true (fun _ _ => 7) 0 ⟨[], []⟩ [] := by
  exact ⟨by decide, rfl⟩

/-- **C4** (counterexample).  The claim says an unhashable cache key never
raises, whether the unhashable data sits in a positional or in a keyword
argument.  But the key — including `frozenset(kwargs.items())` — is built
*before* the `try:` in both wrappers, so an unhashable keyword-argument
value raises `TypeError` out of the wrapper. -/
theorem C4_unhashable_kwarg_raises :
    inference_state_method_cache (fun _ => (0 : Nat)) 0
        ⟨[], [("x", ⟨0, false⟩)]⟩ [] = .error .typeError
    ∧ inference_state_as_method_param_cache (fun _ _ => (0 : Nat)) 0
        ⟨[], [("x", ⟨0, false⟩)]⟩ [] = .error .typeError := by
  exact ⟨by decide, by decide⟩

/-- **C4** (amended).  When the unhashable data sits in a positional
argument (keyword values hashable), both wrappers raise no error: the
`TypeError` from hashing the key at `key in cache` is caught, caching is
skipped entirely (the cache is unchanged), and the wrapped function is
computed directly exactly once and its result returned. -/
theorem C4_unhashable_positional_fallback {ρ : Type} (f : CallArgs → ρ)
    (g : CallArgs → Cache ρ → ρ) (fid gid : Nat) (a : CallArgs)
    (c1 c2 : Cache ρ) (hk : a.kwargsHashable) (ha : ¬ a.argsHashable) :
    inference_state_method_cache f fid a c1 = .ok (.val (f a), c1, 1)
    ∧ inference_state_as_method_param_cache g gid a c2
        = .ok (.val (g a c2), c2, 1) := by
  constructor
  · simp [inference_state_method_cache, hk, ha]
  · simp [inference_state_as_method_param_cache, hk, ha]

theorem C4_unhashable_positional_fallback_witness :
    (⟨[⟨0, false⟩], []⟩ : CallArgs).kwargsHashable
    ∧ ¬ (⟨[⟨0, false⟩], []⟩ : CallArgs).argsHashable
    ∧ inference_state_method_cache (fun _ => (3 : Nat)) 0 ⟨[⟨0, false⟩], []⟩ []
        = .ok (.val 3, [], 1)
    ∧ inference_state_as_method_param_cache (fun _ _ => (4 : Nat)) 1
        ⟨[⟨0, false⟩], []⟩ [] = .ok (.val 4, [], 1) := by
  have h := C4_unhashable_positional_fallback (fun _ => (3 : Nat))
    (fun _ _ => (4 : Nat)) 0 1 ⟨[⟨0, false⟩], []⟩ [] [] (by decide) (by decide)
  exact ⟨by decide, by decide, h.1, h.2⟩

/-- **C8** (confirmed).  Constructing a `ValueSet` from a list (a
re-iterable container) that contains a `ValueSet` as a member fails the
constructor's contract check with an `AssertionError`: the `for` loop after
`frozenset(iterable)` re-iterates the list and the
`assert not isinstance(value, ValueSet)` fires. -/
theorem C8_nested_valueset_rejected (l : List VMember)
    (h : ∃ m ∈ l, m.isSet) :
    ValueSet.init (.list l) = .error .assertionError := by
  unfold ValueSet.init
  rcases h with ⟨m, hm, hset⟩
  have hall : ¬ (l.all fun m => ¬ m.isSet) := by
    simp only [List.all_eq_true, not_forall]
    refine ⟨m, ?_⟩
    simp [hm, hset]
  simp [hall]
  exact ⟨m, hm, hset⟩

theorem C8_nested_valueset_rejected_witness :
    (∃ m ∈ [VMember.set ∅], m.isSet)
    ∧ ValueSet.init (.list [VMember.set ∅]) = .error .assertionError :=
  ⟨by decide, C8_nested_valueset_rejected [VMember.set ∅] (by decide)⟩

/-- **C10** (confirmed).  When the `ValueSet` constructor receives a
one-shot iterator — as `iterator_to_value_set` passes a generator — building
`frozenset(iterable)` exhausts it, the assertion loop iterates an exhausted
iterator and sees no elements, and construction succeeds for *any* yields,
including a nested `ValueSet`, which ends up inside the constructed set
without the contract-violation failure. -/
theorem C10_generator_bypasses_check :
    (∀ (yields : List VMember),
        iterator_to_value_set yields = .ok ⟨yields.toFinset⟩)
    ∧ iterator_to_value_set [VMember.set {⟨0⟩}]
        = .ok ⟨{VMember.set {⟨0⟩}}⟩ := by
  constructor
  · intro yields; rfl
  · decide

/-- **C3** (confirmed).  Plain discipline: a first call on a fresh hashable
key computes once and stores the result; a second call with structurally
identical arguments returns that cached result with zero invocations of the
wrapped function.  Generator discipline: the first call drains the lazy
sequence exactly once and caches the materialized ordered list; a second
identical call returns that cached list without re-invoking the wrapped
function. -/
theorem C3_cache_identity {ρ σ : Type} (f : CallArgs → ρ) (fid : Nat)
    (a : CallArgs) (cache : Cache ρ)
    (hk : a.kwargsHashable) (ha : a.argsHashable)
    (hfresh : Cache.lookup cache (mkKey fid a) = none)
    (g : CallArgs → List σ) (gid : Nat) (b : CallArgs)
    (gcache : Cache (List σ))
    (hk2 : b.kwargsHashable) (hb : b.argsHashable)
    (hfresh2 : Cache.lookup gcache (mkKey gid b) = none) :
    inference_state_method_cache f fid a cache
        = .ok (.val (f a), Cache.store cache (mkKey fid a) (.result (f a)), 1)
    ∧ inference_state_method_cache f fid a
          (Cache.store cache (mkKey fid a) (.result (f a)))
        = .ok (.val (f a), Cache.store cache (mkKey fid a) (.result (f a)), 0)
    ∧ inference_state_method_generator_cache g gid b gcache
        = .ok (.values (g b),
            Cache.store (Cache.store gcache (mkKey gid b) .sentinel) (mkKey gid b)
              (.result (g b)), 1)
    ∧ inference_state_method_generator_cache g gid b
          (Cache.store (Cache.store gcache (mkKey gid b) .sentinel) (mkKey gid b)
            (.result (g b)))
        = .ok (.values (g b),
            Cache.store (Cache.store gcache (mkKey gid b) .sentinel) (mkKey gid b)
              (.result (g b)), 0) := by
  refine ⟨?_, ?_, ?_, ?_⟩
  · simp [inference_state_method_cache, hk, ha, hfresh]
  · simp [inference_state_method_cache, hk, ha, Cache.lookup_store,
      CacheVal.toRet]
  · simp [inference_state_method_generator_cache, hk2, hb, hfresh2]
  · simp [inference_state_method_generator_cache, hk2, hb, Cache.lookup_store,
      CacheVal.toGenRet]

theorem C3_cache_identity_witness :
    ((⟨[], []⟩ : CallArgs).kwargsHashable
      ∧ (⟨[], []⟩ : CallArgs).argsHashable
      ∧ Cache.lookup ([] : Cache Nat) (mkKey 0 ⟨[], []⟩) = none
      ∧ Cache.lookup ([] : Cache (List Nat)) (mkKey 1 ⟨[], []⟩) = none)
    ∧ inference_state_method_cache (fun _ => (5 : Nat)) 0 ⟨[], []⟩
          (Cache.store ([] : Cache Nat) (mkKey 0 ⟨[], []⟩) (.result 5))
        = .ok (.val 5, Cache.store ([] : Cache Nat) (mkKey 0 ⟨[], []⟩) (.result 5), 0)
    ∧ inference_state_method_generator_cache (fun _ => [1, 2]) 1 ⟨[], []⟩
          (Cache.store (Cache.store ([] : Cache (List Nat)) (mkKey 1 ⟨[], []⟩) .sentinel)
            (mkKey 1 ⟨[], []⟩) (.result [1, 2]))
        = .ok (.values [1, 2],
            Cache.store (Cache.store ([] : Cache (List Nat)) (mkKey 1 ⟨[], []⟩) .sentinel)
              (mkKey 1 ⟨[], []⟩) (.result [1, 2]), 0) := by
  have h := C3_cache_identity (fun _ => (5 : Nat)) 0 ⟨[], []⟩ []
    (by decide) (by decide) (by decide)
    (fun _ => [1, 2]) 1 ⟨[], []⟩ [] (by decide) (by decide) (by decide)
  exact ⟨⟨by decide, by decide, by decide, by decide⟩, h.2.1, h.2.2.2⟩

/-- **C5** (code bug).  The forward-reference substitution of
`_fix_forward_reference` is unreachable: `is_string` tests
`isinstance(value, str)`, and the members of an evaluated `ContextSet` are
inference values, never Python `str` instances — so every annotation node is
kept unchanged (first conjunct), even when it evaluates to exactly one
string-constant value whose text parses (the situation in `ctxFR`).
Consequently the quoted annotation `'int'` infers the string value itself
while the literal annotation `int` infers the class — different sets,
refuting the claimed forward-reference equivalence. -/
theorem C5_forward_reference_never_fires :
    (∀ (ctx : Context) (node : PyNode), _fix_forward_reference ctx node = node)
    ∧ ctxFR.evalNode strAnn = [InfValue.strConst "int"]
    ∧ ctxFR.parse "int" = some litAnn
    ∧ _evaluate_for_ann ctxFR strAnn = {InfValue.strConst "int"}
    ∧ _evaluate_for_ann ctxFR litAnn = {InfValue.plain 1}
    ∧ _evaluate_for_ann ctxFR strAnn ≠ _evaluate_for_ann ctxFR litAnn := by
  refine ⟨fix_forward_reference_id, rfl, rfl, ?_, ?_, ?_⟩
  · rw [_evaluate_for_ann, fix_forward_reference_id]
    rfl
  · rw [_evaluate_for_ann, fix_forward_reference_id]
    rfl
  · rw [_evaluate_for_ann, _evaluate_for_ann, fix_forward_reference_id,
      fix_forward_reference_id]
    decide

/-- **C6** (confirmed).  A subscripted name resolved to `Union` evaluates
every subscript argument independently and unions the results; `Optional`
evaluates only its first subscript argument.  Concretely, `Union[int, str]`
yields the set containing the representations of both `int` and `str`, and
`Optional[int]` yields exactly the set inferred for `int` alone. -/
theorem C6_union_optional (ctx : Context) (typU typO : TypInfo)
    (a comma b n : PyNode) (fb fb2 fb3 : Option ContextSet)
    (hU : typU.rootName = "typing") (hUname : typU.name = "Union")
    (hO : typO.rootName = "typing") (hOname : typO.name = "Optional")
    (hn : n.kind ≠ "subscriptlist") :
    py__simple_getitem__ ctx typU (.node "subscriptlist" [a, comma, b]) fb
      = some (ctx.evalSet a ∪ ctx.evalSet b)
    ∧ py__simple_getitem__ ctx typO (.node "subscriptlist" [a, comma, b]) fb2
      = some (ctx.evalSet a)
    ∧ py__simple_getitem__ ctx typO n fb3 = some (ctx.evalSet n)
    ∧ py__simple_getitem__ ctxFR typUnion unionSubscript none
      = some {InfValue.plain 1, InfValue.plain 2}
    ∧ py__simple_getitem__ ctxFR typOptional litAnn none
      = some (ctxFR.evalSet litAnn) := by
  refine ⟨?_, ?_, ?_, ?_, ?_⟩
  · simp [py__simple_getitem__, hU, hUname, PyNode.kind, everyOther,
      fix_forward_reference_id, ContextSet.from_sets, NO_CONTEXTS]
  · simp [py__simple_getitem__, hO, hOname, PyNode.kind, everyOther,
      fix_forward_reference_id]
  · simp [py__simple_getitem__, hO, hOname, hn, fix_forward_reference_id]
  · rw [show py__simple_getitem__ ctxFR typUnion unionSubscript none
        = some (ctxFR.evalSet litAnn ∪ ctxFR.evalSet strNameAnn) from by
      simp [py__simple_getitem__, typUnion, unionSubscript, PyNode.kind,
        everyOther, fix_forward_reference_id, ContextSet.from_sets, NO_CONTEXTS]]
    decide
  · simp [py__simple_getitem__, typOptional, litAnn, PyNode.kind,
      fix_forward_reference_id]

theorem C6_union_optional_witness :
    (typUnion.rootName = "typing" ∧ typUnion.name = "Union"
      ∧ typOptional.rootName = "typing" ∧ typOptional.name = "Optional"
      ∧ litAnn.kind ≠ "subscriptlist")
    ∧ py__simple_getitem__ ctxFR typUnion
        (.node "subscriptlist" [litAnn, .leaf "operator" ",", strNameAnn]) none
      = some (ctxFR.evalSet litAnn ∪ ctxFR.evalSet strNameAnn)
    ∧ py__simple_getitem__ ctxFR typOptional litAnn none
      = some (ctxFR.evalSet litAnn) := by
  have h := C6_union_optional ctxFR typUnion typOptional litAnn
    (.leaf "operator" ",") strNameAnn litAnn none none none
    rfl rfl rfl rfl (by decide)
  exact ⟨⟨rfl, rfl, rfl, rfl, by decide⟩, h.1, h.2.2.1⟩

/-- **C7** (confirmed).  `find_unknown_type_vars` returns exactly the
first-occurrence deduplication of the `TypeVar`s its walk records (recursing
into each subscript argument of every subscripted expression, evaluating the
other visited nodes), hence in first-occurrence order and without
duplicates; for `Mapping[K, Iterable[K]]` the walk records `K` twice and
discovery yields `[K]` with `K` exactly once. -/
theorem C7_discovery_first_occurrence :
    (∀ (ctx : Context) (node : PyNode),
        find_unknown_type_vars ctx node
            = firstOccurrenceDedup (tvOccurrences ctx node)
        ∧ (find_unknown_type_vars ctx node).Nodup
        ∧ (∀ x, x ∈ find_unknown_type_vars ctx node ↔ x ∈ tvOccurrences ctx node))
    ∧ tvOccurrences ctxK mappingAnnTree = [.typeVar "K", .typeVar "K"]
    ∧ find_unknown_type_vars ctxK mappingAnnTree = [InfValue.typeVar "K"] := by
  refine ⟨fun ctx node => ⟨find_unknown_type_vars_eq_dedup ctx node, ?_, ?_⟩,
    tvOccurrences_mappingAnnTree, ?_⟩
  · rw [find_unknown_type_vars_eq_dedup]
    exact nodup_firstOccurrenceDedup _
  · intro x
    rw [find_unknown_type_vars_eq_dedup]
    exact mem_firstOccurrenceDedup _ x
  · rw [find_unknown_type_vars_eq_dedup, tvOccurrences_mappingAnnTree]
    simp [firstOccurrenceDedup]

/-- **C9** (confirmed).  When a parameter has no inline annotation and the
function's `# type:` comment declares a different number of parameters than
the function has, inference still completes (the arity comparison only
logs): if the call is bound to an instance, the first real parameter is
treated as the implicit receiver (empty result) and later parameters shift
down one position in the comment list; a parameter whose aligned index falls
outside the declared list infers to the empty set. -/
theorem C9_comment_arity_mismatch (paramsComments : List String)
    (allParamsLen index : Nat) (isInstanceBound : Bool)
    (evalAnnString : String → ContextSet)
    (hmis : paramsComments.length ≠ allParamsLen) :
    (isInstanceBound = true → index = 0 →
      inferParamFromComment paramsComments index isInstanceBound evalAnnString
        = NO_CONTEXTS)
    ∧ (∀ s, isInstanceBound = true → 0 < index →
        paramsComments[index - 1]? = some s →
        inferParamFromComment paramsComments index isInstanceBound evalAnnString
          = evalAnnString s)
    ∧ (∀ s, isInstanceBound = false → paramsComments[index]? = some s →
        inferParamFromComment paramsComments index isInstanceBound evalAnnString
          = evalAnnString s)
    ∧ (¬ (isInstanceBound = true ∧ index = 0) →
        paramsComments.length ≤ (if isInstanceBound then index - 1 else index) →
        inferParamFromComment paramsComments index isInstanceBound evalAnnString
          = NO_CONTEXTS) := by
  refine ⟨?_, ?_, ?_, ?_⟩
  · intro hb h0
    simp [inferParamFromComment, hb, h0]
  · intro s hb hpos hget
    have hlt : index - 1 < paramsComments.length :=
      (List.getElem?_eq_some_iff.mp hget).1
    have hval : paramsComments[index - 1] = s :=
      (List.getElem?_eq_some_iff.mp hget).2
    unfold inferParamFromComment
    rw [if_neg (by rintro ⟨-, h0⟩; omega)]
    simp only [hb, if_true]
    rw [dif_pos hlt]
    simp [List.get_eq_getElem, hval]
  · intro s hb hget
    have hlt : index < paramsComments.length :=
      (List.getElem?_eq_some_iff.mp hget).1
    have hval : paramsComments[index] = s :=
      (List.getElem?_eq_some_iff.mp hget).2
    subst hb
    unfold inferParamFromComment
    rw [if_neg (by rintro ⟨hb2, -⟩; cases hb2)]
    simp only [Bool.false_eq_true, if_false]
    rw [dif_pos hlt]
    simp [List.get_eq_getElem, hval]
  · intro hne hlen
    unfold inferParamFromComment
    rw [if_neg hne]
    rw [dif_neg (by omega)]

theorem C9_comment_arity_mismatch_witness :
    (["int"].length ≠ 3)
    ∧ inferParamFromComment ["int"] 0 true (fun _ => {InfValue.plain 1})
        = NO_CONTEXTS
    ∧ inferParamFromComment ["int"] 1 true (fun s =>
        if s = "int" then {InfValue.plain 1} else ∅)
        = (if ("int" : String) = "int" then {InfValue.plain 1} else ∅)
    ∧ inferParamFromComment ["int"] 5 true (fun _ => {InfValue.plain 1})
        = NO_CONTEXTS := by
  have h1 := C9_comment_arity_mismatch ["int"] 3 0 true
    (fun _ => {InfValue.plain 1}) (by decide)
  have h2 := C9_comment_arity_mismatch ["int"] 3 1 true
    (fun s => if s = "int" then {InfValue.plain 1} else ∅) (by decide)
  have h3 := C9_comment_arity_mismatch ["int"] 3 5 true
    (fun _ => {InfValue.plain 1}) (by decide)
  refine ⟨by decide, h1.1 rfl rfl, h2.2.1 "int" rfl (by omega) rfl, ?_⟩
  exact h3.2.2.2 (by simp) (by simp)

end Jedi
